import Mathlib

/-!
Verification of the px-engine core against its design specification.

The development shallowly embeds the pixel-surface data model
(`include/color.h`, `src/surface.cpp`), the application-facing drawing
entry points (`src/engine.cpp`, `src/graphics.cpp`), the input state
(`src/input.cpp`) and the main-loop structure (`Engine::run`), and proves
the spec's testable properties about them.  Machine integers are modelled
as `Nat`/`Int` with explicit reduction modulo a power of two where the
C++ code narrows; the bitwise-or of disjoint byte fields used by the
packed-color format is written as addition of the shifted fields.
-/

set_option maxRecDepth 4000

namespace PXE

/-- Narrowing conversion from a C++ `int` to `uint8_t`: for unsigned
targets the C++ conversion is reduction modulo 256 (never clamping). -/
def toU8 (v : Int) : Nat := (v % 256).toNat

/-- Embedding of `pxe::Color` (include/color.h): an RGBA color held in a
single 32-bit value in `0xAARRGGBB` layout. -/
structure Color where
  value : Nat
deriving DecidableEq

/-- The constructor `Color(red, green, blue, alpha)`.  Its parameters are
`uint8_t`, so every channel is reduced modulo 256 at the call boundary;
`alpha << 24 | red << 16 | green << 8 | blue` is written with `*` and `+`
because the byte fields are disjoint. -/
def Color.ofRGBA (red green blue alpha : Nat) : Color :=
  ⟨alpha % 256 * 16777216 + red % 256 * 65536 + green % 256 * 256 + blue % 256⟩

/-- `Color::r()`: bits 16-23 of the packed value. -/
def Color.r (c : Color) : Nat := c.value / 65536 % 256

/-- `Color::g()`: bits 8-15 of the packed value. -/
def Color.g (c : Color) : Nat := c.value / 256 % 256

/-- `Color::b()`: bits 0-7 of the packed value. -/
def Color.b (c : Color) : Nat := c.value % 256

/-- `Color::a()`: bits 24-31 of the packed value. -/
def Color.a (c : Color) : Nat := c.value / 16777216 % 256

/-- `Color::Black`: opaque black `(0, 0, 0, 255)`. -/
def Color.Black : Color := Color.ofRGBA 0 0 0 255

/-- The 32-bit cell value `0xFF000000`, opaque black in `0xAARRGGBB` format. -/
def opaqueBlackPixel : Nat := 0xFF000000

/-- Embedding of `pxe::Surface` (src/surface.h): a fixed-size grid of
packed 32-bit pixels stored row-major in a linear buffer. -/
structure Surface where
  width : Int
  height : Int
  pixelBuffer : List Nat
deriving DecidableEq

/-- The constructor `Surface(width, height)`: a buffer of
`width * height` cells, every cell initialized to `0xFF000000`. -/
def Surface.ofSize (width height : Int) : Surface :=
  ⟨width, height, List.replicate (width * height).toNat opaqueBlackPixel⟩

/-- `Surface::clear()`: refill the whole buffer with `0xFF000000`. -/
def Surface.clear (s : Surface) : Surface :=
  { s with pixelBuffer := List.replicate s.pixelBuffer.length opaqueBlackPixel }

/-- `Surface::setPixel(int x, int y, Color color)`: out-of-bounds writes
return without touching the buffer; otherwise the cell at row-major index
`y * width + x` receives `a << 24 | r << 16 | g << 8 | b` built from the
color's channels. -/
def Surface.setPixel (s : Surface) (x y : Int) (color : Color) : Surface :=
  if x < 0 ∨ s.width ≤ x ∨ y < 0 ∨ s.height ≤ y then s
  else
    let index := (y * s.width + x).toNat
    let pixel := color.a * 16777216 + color.r * 65536 + color.g * 256 + color.b
    { s with pixelBuffer := s.pixelBuffer.set index pixel }

/-- `Surface::setPixel(int x, int y, uint8_t r, uint8_t g, uint8_t b)`:
same bounds check, alpha forced to 255.  The `% 256` on each channel
models the `uint8_t` parameter type. -/
def Surface.setPixelRGB (s : Surface) (x y : Int) (r g b : Nat) : Surface :=
  if x < 0 ∨ s.width ≤ x ∨ y < 0 ∨ s.height ≤ y then s
  else
    let index := (y * s.width + x).toNat
    let pixel := 255 * 16777216 + r % 256 * 65536 + g % 256 * 256 + b % 256
    { s with pixelBuffer := s.pixelBuffer.set index pixel }

/-- `Surface::getPixel(int x, int y)`: `Color::Black` when out of bounds,
otherwise the cell's four bytes are extracted and repacked through the
`Color` constructor. -/
def Surface.getPixel (s : Surface) (x y : Int) : Color :=
  if x < 0 ∨ s.width ≤ x ∨ y < 0 ∨ s.height ≤ y then Color.Black
  else
    let pixel := s.pixelBuffer.getD (y * s.width + x).toNat 0
    Color.ofRGBA (pixel / 65536 % 256) (pixel / 256 % 256) (pixel % 256)
      (pixel / 16777216 % 256)

/-- A surface is well formed when its buffer has exactly
`width * height` cells, as guaranteed by the constructor. -/
def Surface.WF (s : Surface) : Prop :=
  s.pixelBuffer.length = (s.width * s.height).toNat

instance (s : Surface) : Decidable s.WF :=
  decidable_of_iff (s.pixelBuffer.length = (s.width * s.height).toNat) Iff.rfl

theorem Surface.WF.ofSize (w h : Int) : (Surface.ofSize w h).WF := by
  simp [Surface.WF, Surface.ofSize]

theorem Surface.WF.setPixel {s : Surface} (hWF : s.WF) (x y : Int) (c : Color) :
    (s.setPixel x y c).WF := by
  unfold Surface.setPixel
  split
  · exact hWF
  · simpa [Surface.WF] using hWF

theorem Surface.WF.setPixelRGB {s : Surface} (hWF : s.WF) (x y : Int) (r g b : Nat) :
    (s.setPixelRGB x y r g b).WF := by
  unfold Surface.setPixelRGB
  split
  · exact hWF
  · simpa [Surface.WF] using hWF

/-- The row-major index of an in-bounds coordinate is inside the buffer. -/
theorem rowMajor_lt {w h x y : Int} (hx0 : 0 ≤ x) (hxw : x < w)
    (hy0 : 0 ≤ y) (hyh : y < h) : (y * w + x).toNat < (w * h).toNat := by
  have hw : 0 < w := lt_of_le_of_lt hx0 hxw
  have hh : 0 < h := lt_of_le_of_lt hy0 hyh
  have h1 : (y + 1) * w ≤ h * w :=
    mul_le_mul_of_nonneg_right (by omega) hw.le
  have h2 : y * w + x < w * h := by
    rw [add_mul, one_mul] at h1
    rw [mul_comm w h]
    omega
  have h3 : 0 ≤ y * w + x := add_nonneg (mul_nonneg hy0 hw.le) hx0
  omega

/-- Distinct in-bounds coordinates have distinct row-major indices. -/
theorem rowMajor_inj {w h x y x' y' : Int} (hx0 : 0 ≤ x) (hxw : x < w)
    (hy0 : 0 ≤ y) (hyh : y < h) (hx0' : 0 ≤ x') (hxw' : x' < w)
    (hy0' : 0 ≤ y') (hyh' : y' < h) (hne : ¬(x = x' ∧ y = y')) :
    (y * w + x).toNat ≠ (y' * w + x').toNat := by
  have hw : 0 < w := lt_of_le_of_lt hx0 hxw
  have e1 : 0 ≤ y * w + x := add_nonneg (mul_nonneg hy0 hw.le) hx0
  have e2 : 0 ≤ y' * w + x' := add_nonneg (mul_nonneg hy0' hw.le) hx0'
  intro hEq
  have h1 : y * w + x = y' * w + x' := by omega
  rcases lt_trichotomy y y' with hlt | heq | hgt
  · have : (y + 1) * w ≤ y' * w := mul_le_mul_of_nonneg_right (by omega) hw.le
    rw [add_mul, one_mul] at this
    omega
  · subst heq
    have : x = x' := by omega
    exact hne ⟨this, rfl⟩
  · have : (y' + 1) * w ≤ y * w := mul_le_mul_of_nonneg_right (by omega) hw.le
    rw [add_mul, one_mul] at this
    omega

/-- Unfolding of the RGB write at an in-bounds coordinate. -/
theorem setPixelRGB_inBounds {s : Surface} {x y : Int} (hx0 : 0 ≤ x)
    (hxw : x < s.width) (hy0 : 0 ≤ y) (hyh : y < s.height) (r g b : Nat) :
    s.setPixelRGB x y r g b =
      Surface.mk s.width s.height (s.pixelBuffer.set (y * s.width + x).toNat
        (255 * 16777216 + r % 256 * 65536 + g % 256 * 256 + b % 256)) := by
  unfold Surface.setPixelRGB
  rw [if_neg (by omega)]

/-- Unfolding of the Color write at an in-bounds coordinate. -/
theorem setPixel_inBounds {s : Surface} {x y : Int} (hx0 : 0 ≤ x)
    (hxw : x < s.width) (hy0 : 0 ≤ y) (hyh : y < s.height) (c : Color) :
    s.setPixel x y c =
      Surface.mk s.width s.height (s.pixelBuffer.set (y * s.width + x).toNat
        (c.a * 16777216 + c.r * 65536 + c.g * 256 + c.b)) := by
  unfold Surface.setPixel
  rw [if_neg (by omega)]

/-- Unfolding of the read at an in-bounds coordinate. -/
theorem getPixel_inBounds {s : Surface} {x y : Int} (hx0 : 0 ≤ x)
    (hxw : x < s.width) (hy0 : 0 ≤ y) (hyh : y < s.height) :
    s.getPixel x y =
      Color.ofRGBA (s.pixelBuffer.getD (y * s.width + x).toNat 0 / 65536 % 256)
        (s.pixelBuffer.getD (y * s.width + x).toNat 0 / 256 % 256)
        (s.pixelBuffer.getD (y * s.width + x).toNat 0 % 256)
        (s.pixelBuffer.getD (y * s.width + x).toNat 0 / 16777216 % 256) := by
  unfold Surface.getPixel
  rw [if_neg (by omega)]

/-- Every cell of a replicated buffer holds the replicated value. -/
theorem getD_replicate_of_lt {n i a : Nat} (h : i < n) :
    (List.replicate n a).getD i 0 = a := by
  have hlen : i < (List.replicate n a).length := by
    rw [List.length_replicate]; exact h
  rw [List.getD_eq_getElem _ _ hlen, List.getElem_replicate]

/-- Reading back the cell just written by the RGB overload. -/
theorem getPixel_setPixelRGB_self {s : Surface} (hWF : s.WF) {x y : Int}
    (r g b : Nat) (hx0 : 0 ≤ x) (hxw : x < s.width) (hy0 : 0 ≤ y)
    (hyh : y < s.height) :
    (s.setPixelRGB x y r g b).getPixel x y = Color.ofRGBA r g b 255 := by
  have hidx : (y * s.width + x).toNat < s.pixelBuffer.length := by
    rw [hWF]; exact rowMajor_lt hx0 hxw hy0 hyh
  rw [setPixelRGB_inBounds hx0 hxw hy0 hyh r g b]
  rw [@getPixel_inBounds (Surface.mk s.width s.height
    (s.pixelBuffer.set (y * s.width + x).toNat
      (255 * 16777216 + r % 256 * 65536 + g % 256 * 256 + b % 256)))
    x y hx0 hxw hy0 hyh]
  dsimp only
  have hlen : (y * s.width + x).toNat <
      (s.pixelBuffer.set (y * s.width + x).toNat
        (255 * 16777216 + r % 256 * 65536 + g % 256 * 256 + b % 256)).length := by
    rw [List.length_set]; exact hidx
  rw [List.getD_eq_getElem _ _ hlen, List.getElem_set_self]
  unfold Color.ofRGBA
  refine congrArg Color.mk ?_
  omega

/-- Reading back the cell just written by the Color overload. -/
theorem getPixel_setPixel_self {s : Surface} (hWF : s.WF) {x y : Int}
    (c : Color) (hx0 : 0 ≤ x) (hxw : x < s.width) (hy0 : 0 ≤ y)
    (hyh : y < s.height) :
    (s.setPixel x y c).getPixel x y = Color.ofRGBA c.r c.g c.b c.a := by
  have hidx : (y * s.width + x).toNat < s.pixelBuffer.length := by
    rw [hWF]; exact rowMajor_lt hx0 hxw hy0 hyh
  rw [setPixel_inBounds hx0 hxw hy0 hyh c]
  rw [@getPixel_inBounds (Surface.mk s.width s.height
    (s.pixelBuffer.set (y * s.width + x).toNat
      (c.a * 16777216 + c.r * 65536 + c.g * 256 + c.b)))
    x y hx0 hxw hy0 hyh]
  dsimp only
  have hlen : (y * s.width + x).toNat <
      (s.pixelBuffer.set (y * s.width + x).toNat
        (c.a * 16777216 + c.r * 65536 + c.g * 256 + c.b)).length := by
    rw [List.length_set]; exact hidx
  rw [List.getD_eq_getElem _ _ hlen, List.getElem_set_self]
  unfold Color.ofRGBA Color.r Color.g Color.b Color.a
  refine congrArg Color.mk ?_
  omega

/-- C1: for every surface and every in-bounds coordinate `(x, y)` and
every color `c`, `setPixel(x, y, c)` followed by `getPixel(x, y)` returns
exactly `c`: all four channels, the alpha channel included, round-trip
through the packed 32-bit cell. -/
theorem setPixel_getPixel_roundtrip (s : Surface) (hWF : s.WF) (x y : Int)
    (c : Color) (hx0 : 0 ≤ x) (hxw : x < s.width) (hy0 : 0 ≤ y)
    (hyh : y < s.height) (hc : c.value < 4294967296) :
    (s.setPixel x y c).getPixel x y = c := by
  rw [getPixel_setPixel_self hWF c hx0 hxw hy0 hyh]
  obtain ⟨v⟩ := c
  unfold Color.ofRGBA Color.r Color.g Color.b Color.a
  dsimp only at hc ⊢
  refine congrArg Color.mk ?_
  omega

/-- Witness for C1 at a concrete surface, coordinate and non-opaque color. -/
theorem setPixel_getPixel_roundtrip_witness :
    ((Surface.ofSize 3 2).setPixel 2 1 (Color.ofRGBA 10 20 30 40)).getPixel 2 1 =
      Color.ofRGBA 10 20 30 40 :=
  setPixel_getPixel_roundtrip (Surface.ofSize 3 2) (by decide) 2 1
    (Color.ofRGBA 10 20 30 40) (by decide) (by decide) (by decide) (by decide)
    (by decide)

/-- C2: for every surface and every out-of-bounds coordinate,
`getPixel` returns opaque black `(0,0,0,255)` regardless of the surface's
contents, and both `setPixel` overloads leave the surface (hence the
whole pixel buffer) unchanged: no exception, no clamping, no wraparound. -/
theorem outOfBounds_getPixel_black_setPixel_noop (s : Surface) (x y : Int)
    (h : x < 0 ∨ s.width ≤ x ∨ y < 0 ∨ s.height ≤ y) :
    s.getPixel x y = Color.Black ∧ (∀ c : Color, s.setPixel x y c = s) ∧
      ∀ r g b : Nat, s.setPixelRGB x y r g b = s := by
  refine ⟨?_, fun c => ?_, fun r g b => ?_⟩
  · unfold Surface.getPixel; rw [if_pos h]
  · unfold Surface.setPixel; rw [if_pos h]
  · unfold Surface.setPixelRGB; rw [if_pos h]

/-- Witness for C2 on a surface with prior writes and a negative x. -/
theorem outOfBounds_getPixel_black_setPixel_noop_witness :
    ((Surface.ofSize 2 2).setPixel 1 1 (Color.ofRGBA 9 9 9 9)).getPixel (-1) 0 =
        Color.Black ∧
      (∀ c : Color, ((Surface.ofSize 2 2).setPixel 1 1
          (Color.ofRGBA 9 9 9 9)).setPixel (-1) 0 c =
        (Surface.ofSize 2 2).setPixel 1 1 (Color.ofRGBA 9 9 9 9)) ∧
      ∀ r g b : Nat, ((Surface.ofSize 2 2).setPixel 1 1
          (Color.ofRGBA 9 9 9 9)).setPixelRGB (-1) 0 r g b =
        (Surface.ofSize 2 2).setPixel 1 1 (Color.ofRGBA 9 9 9 9) :=
  outOfBounds_getPixel_black_setPixel_noop
    ((Surface.ofSize 2 2).setPixel 1 1 (Color.ofRGBA 9 9 9 9)) (-1) 0
    (by decide)

/-- C8: after `clear()` every in-bounds cell of any well-formed surface
(whatever was written to it before) reads as opaque black, and every cell
of a freshly constructed surface already reads as opaque black. -/
theorem clear_and_construction_opaque_black (s : Surface) (hWF : s.WF)
    (x y : Int) (hx0 : 0 ≤ x) (hxw : x < s.width) (hy0 : 0 ≤ y)
    (hyh : y < s.height) (w h x' y' : Int) (hx0' : 0 ≤ x') (hxw' : x' < w)
    (hy0' : 0 ≤ y') (hyh' : y' < h) :
    s.clear.getPixel x y = Color.Black ∧
      (Surface.ofSize w h).getPixel x' y' = Color.Black := by
  constructor
  · have hidx : (y * s.width + x).toNat < s.pixelBuffer.length := by
      rw [hWF]; exact rowMajor_lt hx0 hxw hy0 hyh
    rw [@getPixel_inBounds s.clear x y hx0 hxw hy0 hyh]
    have hcell : s.clear.pixelBuffer.getD (y * s.clear.width + x).toNat 0 =
        opaqueBlackPixel := by
      show (List.replicate s.pixelBuffer.length opaqueBlackPixel).getD
        (y * s.width + x).toNat 0 = opaqueBlackPixel
      exact getD_replicate_of_lt hidx
    rw [hcell]
    decide
  · have hidx : (y' * w + x').toNat < (w * h).toNat :=
      rowMajor_lt hx0' hxw' hy0' hyh'
    rw [@getPixel_inBounds (Surface.ofSize w h) x' y' hx0' hxw' hy0' hyh']
    have hcell : (Surface.ofSize w h).pixelBuffer.getD
        (y' * (Surface.ofSize w h).width + x').toNat 0 = opaqueBlackPixel := by
      show (List.replicate (w * h).toNat opaqueBlackPixel).getD
        (y' * w + x').toNat 0 = opaqueBlackPixel
      exact getD_replicate_of_lt hidx
    rw [hcell]
    decide

/-- Witness for C8: a 2-by-2 surface with a white pixel written before the
clear, and a fresh 3-by-1 surface. -/
theorem clear_and_construction_opaque_black_witness :
    ((Surface.ofSize 2 2).setPixel 0 1 (Color.ofRGBA 255 255 255 255)).clear.getPixel
        0 1 = Color.Black ∧
      (Surface.ofSize 3 1).getPixel 2 0 = Color.Black :=
  clear_and_construction_opaque_black
    ((Surface.ofSize 2 2).setPixel 0 1 (Color.ofRGBA 255 255 255 255))
    (by decide) 0 1 (by decide) (by decide) (by decide) (by decide)
    3 1 2 0 (by decide) (by decide) (by decide) (by decide)

/-- Channel extractors always produce a byte. -/
theorem Color.r_lt (c : Color) : c.r < 256 := Nat.mod_lt _ (by omega)

theorem Color.g_lt (c : Color) : c.g < 256 := Nat.mod_lt _ (by omega)

theorem Color.b_lt (c : Color) : c.b < 256 := Nat.mod_lt _ (by omega)

/-- `toU8` is the identity on byte values. -/
theorem toU8_coe_of_lt {n : Nat} (h : n < 256) : toU8 (n : Int) = n := by
  unfold toU8
  omega

/-- Embedding of `Graphics::setPixel(int x, int y, int r, int g, int b)`
(src/graphics.cpp): delegates to `Surface::setPixel(.., uint8_t, ..)`,
so each `int` channel narrows to `uint8_t`, reducing modulo 256. -/
def Graphics.setPixelInt (x y r g b : Int) (s : Surface) : Surface :=
  s.setPixelRGB x y (toU8 r) (toU8 g) (toU8 b)

/-- Embedding of `Engine::drawPixel(int x, int y, int r, int g, int b)`
(src/engine.cpp): forwards to `Graphics::setPixel`. -/
def Engine.drawPixelRGB (x y r g b : Int) (s : Surface) : Surface :=
  Graphics.setPixelInt x y r g b s

/-- Embedding of `Engine::drawPixel(int x, int y, Color color)`
(src/engine.cpp line 67): decomposes the color into
`color.r(), color.g(), color.b()` and forwards those three `int` channels
to `Graphics::setPixel`; the alpha channel is not forwarded. -/
def Engine.drawPixelColor (x y : Int) (color : Color) (s : Surface) : Surface :=
  Graphics.setPixelInt x y (color.r : Int) (color.g : Int) (color.b : Int) s

theorem Surface.WF.drawPixelRGB {s : Surface} (hWF : s.WF) (x y r g b : Int) :
    (Engine.drawPixelRGB x y r g b s).WF :=
  hWF.setPixelRGB x y (toU8 r) (toU8 g) (toU8 b)

/-- C9: the application-facing `drawPixel(x, y, r, g, b)` taking `int`
channel arguments stores each channel reduced modulo 256 (so `r = 256`
stores red 0 and `r = -1` stores red 255); the call never fails and never
clamps, and the stored alpha is 255. -/
theorem drawPixelRGB_mod256 (s : Surface) (hWF : s.WF) (x y : Int)
    (hx0 : 0 ≤ x) (hxw : x < s.width) (hy0 : 0 ≤ y) (hyh : y < s.height)
    (r g b : Int) :
    (Engine.drawPixelRGB x y r g b s).getPixel x y =
      Color.ofRGBA ((r % 256).toNat) ((g % 256).toNat) ((b % 256).toNat) 255 := by
  unfold Engine.drawPixelRGB Graphics.setPixelInt toU8
  exact getPixel_setPixelRGB_self hWF _ _ _ hx0 hxw hy0 hyh

/-- Witness for C9: on a 1-by-1 surface, `r = 256` stores red 0 and
`g = -1` stores green 255. -/
theorem drawPixelRGB_mod256_witness :
    (Engine.drawPixelRGB 0 0 256 (-1) 300 (Surface.ofSize 1 1)).getPixel 0 0 =
      Color.ofRGBA 0 255 44 255 :=
  drawPixelRGB_mod256 (Surface.ofSize 1 1) (by decide) 0 0 (by decide)
    (by decide) (by decide) (by decide) 256 (-1) 300

/-- C3 as stated is false on the code: drawing the color
`(10, 20, 30, alpha 40)` at the in-bounds cell `(0, 0)` of a 1-by-1
surface and reading the cell back does not return that color — the read
returns alpha 255, because `Engine::drawPixel(Color)` forwards only the
r, g, b channels. -/
theorem drawPixelColor_alpha_counterexample :
    (Engine.drawPixelColor 0 0 (Color.ofRGBA 10 20 30 40)
        (Surface.ofSize 1 1)).getPixel 0 0 ≠ Color.ofRGBA 10 20 30 40 := by
  decide

/-- C3 amended: the application-facing `drawPixel(x, y, c)` with a
`Color` argument writes the red, green and blue channels of `c` into the
cell but stores alpha 255, discarding the alpha channel of `c`; the
`Engine` overload decomposes the color into r, g, b and forwards to the
RGB `setPixel` path rather than to the Color overload of the surface. -/
theorem drawPixelColor_rgb_alpha255 (s : Surface) (hWF : s.WF) (x y : Int)
    (hx0 : 0 ≤ x) (hxw : x < s.width) (hy0 : 0 ≤ y) (hyh : y < s.height)
    (c : Color) :
    (Engine.drawPixelColor x y c s).getPixel x y =
      Color.ofRGBA c.r c.g c.b 255 := by
  unfold Engine.drawPixelColor Graphics.setPixelInt
  rw [getPixel_setPixelRGB_self hWF _ _ _ hx0 hxw hy0 hyh]
  rw [toU8_coe_of_lt c.r_lt, toU8_coe_of_lt c.g_lt, toU8_coe_of_lt c.b_lt]

/-- Witness for the amended C3 at the counterexample's input. -/
theorem drawPixelColor_rgb_alpha255_witness :
    (Engine.drawPixelColor 0 0 (Color.ofRGBA 10 20 30 40)
        (Surface.ofSize 1 1)).getPixel 0 0 =
      Color.ofRGBA (Color.ofRGBA 10 20 30 40).r (Color.ofRGBA 10 20 30 40).g
        (Color.ofRGBA 10 20 30 40).b 255 :=
  drawPixelColor_rgb_alpha255 (Surface.ofSize 1 1) (by decide) 0 0
    (by decide) (by decide) (by decide) (by decide) (Color.ofRGBA 10 20 30 40)

/-! ### Input state (src/input.h, src/input.cpp) -/

/-- GLFW action code for a button/key release. -/
def GLFW_RELEASE : Int := 0

/-- GLFW action code for a button/key press. -/
def GLFW_PRESS : Int := 1

/-- GLFW action code for a key repeat. -/
def GLFW_REPEAT : Int := 2

/-- Embedding of `pxe::Input` (src/input.h): press-state maps for keys
and mouse buttons plus the last cursor position.  The two
`std::unordered_map<int, bool>` members are modelled as partial mappings;
an absent entry is `none`.  Cursor coordinates (C++ `double`) are
modelled as rationals. -/
structure Input where
  keyState : Int → Option Bool
  mouseState : Int → Option Bool
  mouseX : Rat
  mouseY : Rat

/-- A freshly constructed `Input`: both maps empty, cursor at `(0, 0)`
(the member initializers in src/input.h). -/
def Input.init : Input := ⟨fun _ => none, fun _ => none, 0, 0⟩

/-- `Input::isKeyPressed(int)`: true exactly when the map holds an entry
for `key` and that entry is true. -/
def Input.isKeyPressed (inp : Input) (key : Int) : Bool :=
  (inp.keyState key).getD false

/-- `Input::isMousePressed(int)`: same lookup on the mouse map. -/
def Input.isMousePressed (inp : Input) (button : Int) : Bool :=
  (inp.mouseState button).getD false

/-- `Input::keyCallbackGLFW`: store true on `GLFW_PRESS`, false on
`GLFW_RELEASE`, and leave the map untouched on any other action
(`GLFW_REPEAT` in particular). -/
def Input.keyCallback (inp : Input) (key action : Int) : Input :=
  if action = GLFW_PRESS then
    { inp with keyState := fun k => if k = key then some true else inp.keyState k }
  else if action = GLFW_RELEASE then
    { inp with keyState := fun k => if k = key then some false else inp.keyState k }
  else inp

/-- `Input::mouseButtonCallbackGLFW`: same press/release handling on the
mouse map. -/
def Input.mouseButtonCallback (inp : Input) (button action : Int) : Input :=
  if action = GLFW_PRESS then
    { inp with mouseState := fun k => if k = button then some true else inp.mouseState k }
  else if action = GLFW_RELEASE then
    { inp with mouseState := fun k => if k = button then some false else inp.mouseState k }
  else inp

/-- `Input::cursorPositionCallbackGLFW`: overwrite the position. -/
def Input.cursorPosCallback (inp : Input) (xpos ypos : Rat) : Input :=
  { inp with mouseX := xpos, mouseY := ypos }

/-- An event delivered by the window layer to the input callbacks. -/
inductive InputEvent where
  | key (k action : Int)
  | mouse (b action : Int)
  | cursor (xpos ypos : Rat)

/-- Dispatch one event to the matching callback. -/
def Input.applyEvent (inp : Input) : InputEvent → Input
  | .key k a => inp.keyCallback k a
  | .mouse b a => inp.mouseButtonCallback b a
  | .cursor xp yp => inp.cursorPosCallback xp yp

/-- Dispatch a sequence of events in order. -/
def Input.applyEvents (inp : Input) (evs : List InputEvent) : Input :=
  evs.foldl Input.applyEvent inp

/-- The key identifier an event carries, if it is a key event. -/
def InputEvent.keyId : InputEvent → Option Int
  | .key k _ => some k
  | _ => none

/-- The mouse-button identifier an event carries, if it is a mouse event. -/
def InputEvent.buttonId : InputEvent → Option Int
  | .mouse b _ => some b
  | _ => none

/-- Events that do not mention a key leave its stored state unchanged. -/
theorem keyState_unchanged_of_not_mentioned (evs : List InputEvent) :
    ∀ (inp : Input) (k : Int), (∀ e ∈ evs, e.keyId ≠ some k) →
      (inp.applyEvents evs).keyState k = inp.keyState k := by
  induction evs with
  | nil => intro inp k _; rfl
  | cons e rest ih =>
    intro inp k hk
    have hrest : ∀ e' ∈ rest, e'.keyId ≠ some k := fun e' he' =>
      hk e' (List.mem_cons_of_mem e he')
    have hstep : (inp.applyEvent e).keyState k = inp.keyState k := by
      cases e with
      | key k' a =>
        have hne : k ≠ k' := by
          intro h
          exact hk (.key k' a) (List.mem_cons_self _ _) (by simp [InputEvent.keyId, h])
        show (inp.keyCallback k' a).keyState k = inp.keyState k
        unfold Input.keyCallback
        by_cases h1 : a = GLFW_PRESS
        · rw [if_pos h1]; simp [hne]
        · rw [if_neg h1]
          by_cases h2 : a = GLFW_RELEASE
          · rw [if_pos h2]; simp [hne]
          · rw [if_neg h2]
      | mouse b a =>
        show (inp.mouseButtonCallback b a).keyState k = inp.keyState k
        unfold Input.mouseButtonCallback
        by_cases h1 : a = GLFW_PRESS
        · rw [if_pos h1]
        · rw [if_neg h1]
          by_cases h2 : a = GLFW_RELEASE
          · rw [if_pos h2]
          · rw [if_neg h2]
      | cursor xp yp => rfl
    calc (inp.applyEvents (e :: rest)).keyState k
        = ((inp.applyEvent e).applyEvents rest).keyState k := rfl
      _ = (inp.applyEvent e).keyState k := ih (inp.applyEvent e) k hrest
      _ = inp.keyState k := hstep

/-- Events that do not mention a mouse button leave its state unchanged. -/
theorem mouseState_unchanged_of_not_mentioned (evs : List InputEvent) :
    ∀ (inp : Input) (b : Int), (∀ e ∈ evs, e.buttonId ≠ some b) →
      (inp.applyEvents evs).mouseState b = inp.mouseState b := by
  induction evs with
  | nil => intro inp b _; rfl
  | cons e rest ih =>
    intro inp b hb
    have hrest : ∀ e' ∈ rest, e'.buttonId ≠ some b := fun e' he' =>
      hb e' (List.mem_cons_of_mem e he')
    have hstep : (inp.applyEvent e).mouseState b = inp.mouseState b := by
      cases e with
      | key k' a =>
        show (inp.keyCallback k' a).mouseState b = inp.mouseState b
        unfold Input.keyCallback
        by_cases h1 : a = GLFW_PRESS
        · rw [if_pos h1]
        · rw [if_neg h1]
          by_cases h2 : a = GLFW_RELEASE
          · rw [if_pos h2]
          · rw [if_neg h2]
      | mouse b' a =>
        have hne : b ≠ b' := by
          intro h
          exact hb (.mouse b' a) (List.mem_cons_self _ _)
            (by simp [InputEvent.buttonId, h])
        show (inp.mouseButtonCallback b' a).mouseState b = inp.mouseState b
        unfold Input.mouseButtonCallback
        by_cases h1 : a = GLFW_PRESS
        · rw [if_pos h1]; simp [hne]
        · rw [if_neg h1]
          by_cases h2 : a = GLFW_RELEASE
          · rw [if_pos h2]; simp [hne]
          · rw [if_neg h2]
      | cursor xp yp => rfl
    calc (inp.applyEvents (e :: rest)).mouseState b
        = ((inp.applyEvent e).applyEvents rest).mouseState b := rfl
      _ = (inp.applyEvent e).mouseState b := ih (inp.applyEvent e) b hrest
      _ = inp.mouseState b := hstep

/-- C7: an identifier that never appeared in any event reads as not
pressed (false, never an error); after a press event the query returns
true; after a release event it returns false; and a repeat event leaves
the stored input state entirely unchanged — for keys and for mouse
buttons alike. -/
theorem input_query_semantics (evs : List InputEvent) (k b : Int)
    (hk : ∀ e ∈ evs, e.keyId ≠ some k) (hb : ∀ e ∈ evs, e.buttonId ≠ some b) :
    (Input.init.applyEvents evs).isKeyPressed k = false ∧
      (Input.init.applyEvents evs).isMousePressed b = false ∧
      (∀ (inp : Input) (k' : Int),
        (inp.keyCallback k' GLFW_PRESS).isKeyPressed k' = true) ∧
      (∀ (inp : Input) (k' : Int),
        (inp.keyCallback k' GLFW_RELEASE).isKeyPressed k' = false) ∧
      (∀ (inp : Input) (k' : Int), inp.keyCallback k' GLFW_REPEAT = inp) ∧
      (∀ (inp : Input) (b' : Int),
        (inp.mouseButtonCallback b' GLFW_PRESS).isMousePressed b' = true) ∧
      (∀ (inp : Input) (b' : Int),
        (inp.mouseButtonCallback b' GLFW_RELEASE).isMousePressed b' = false) ∧
      ∀ (inp : Input) (b' : Int), inp.mouseButtonCallback b' GLFW_REPEAT = inp := by
  refine ⟨?_, ?_, ?_, ?_, ?_, ?_, ?_, ?_⟩
  · unfold Input.isKeyPressed
    rw [keyState_unchanged_of_not_mentioned evs Input.init k hk]
    rfl
  · unfold Input.isMousePressed
    rw [mouseState_unchanged_of_not_mentioned evs Input.init b hb]
    rfl
  · intro inp k'
    unfold Input.keyCallback Input.isKeyPressed
    rw [if_pos rfl]
    simp
  · intro inp k'
    unfold Input.keyCallback Input.isKeyPressed
    rw [if_neg (by decide), if_pos rfl]
    simp
  · intro inp k'
    unfold Input.keyCallback
    rw [if_neg (by decide), if_neg (by decide)]
  · intro inp b'
    unfold Input.mouseButtonCallback Input.isMousePressed
    rw [if_pos rfl]
    simp
  · intro inp b'
    unfold Input.mouseButtonCallback Input.isMousePressed
    rw [if_neg (by decide), if_pos rfl]
    simp
  · intro inp b'
    unfold Input.mouseButtonCallback
    rw [if_neg (by decide), if_neg (by decide)]

/-- Witness for C7: a trace with a key press on key 5, a mouse press on
button 0 and a cursor move; key 7 and button 2 never appear in it. -/
theorem input_query_semantics_witness :
    (Input.init.applyEvents
        [.key 5 1, .mouse 0 1, .cursor 3 4]).isKeyPressed 7 = false ∧
      (Input.init.applyEvents
        [.key 5 1, .mouse 0 1, .cursor 3 4]).isMousePressed 2 = false ∧
      (∀ (inp : Input) (k' : Int),
        (inp.keyCallback k' GLFW_PRESS).isKeyPressed k' = true) ∧
      (∀ (inp : Input) (k' : Int),
        (inp.keyCallback k' GLFW_RELEASE).isKeyPressed k' = false) ∧
      (∀ (inp : Input) (k' : Int), inp.keyCallback k' GLFW_REPEAT = inp) ∧
      (∀ (inp : Input) (b' : Int),
        (inp.mouseButtonCallback b' GLFW_PRESS).isMousePressed b' = true) ∧
      (∀ (inp : Input) (b' : Int),
        (inp.mouseButtonCallback b' GLFW_RELEASE).isMousePressed b' = false) ∧
      ∀ (inp : Input) (b' : Int), inp.mouseButtonCallback b' GLFW_REPEAT = inp :=
  input_query_semantics [.key 5 1, .mouse 0 1, .cursor 3 4] 7 2
    (by decide) (by decide)

/-! ### The main loop `Engine::run` (src/engine.cpp lines 36-53)

Clock instants are modelled as rationals (seconds).  `nowSeq k` is the
value returned by the k-th call to `clock::now()` inside `run()`: call 0
is the `previousTime` sample taken at entry — before `onSetup()` runs —
and calls 1, 2, ... are the per-iteration `currentTime` samples. -/

/-- The loop of `Engine::run` restricted to its timing effect: each
iteration samples `currentTime = nowSeq k`, passes
`currentTime - previousTime` to `onUpdate` and stores `currentTime` as
the new `previousTime`.  `n` is the number of iterations executed before
the window signals close. -/
def runLoopDeltas (nowSeq : Nat → Rat) (prev : Rat) (k : Nat) : Nat → List Rat
  | 0 => []
  | n + 1 => (nowSeq k - prev) :: runLoopDeltas nowSeq (nowSeq k) (k + 1) n

/-- The sequence of deltaTime values passed to `onUpdate` over `n` loop
iterations of `Engine::run`: `previousTime` starts as the entry sample
`nowSeq 0`, and the first in-loop sample is `nowSeq 1`. -/
def runDeltas (nowSeq : Nat → Rat) (n : Nat) : List Rat :=
  runLoopDeltas nowSeq (nowSeq 0) 1 n

/-- Modelled from the spec: the first deltaTime as the specification
describes it, namely the elapsed time measured from just after the setup
callback returned, where `setupEnd` is the instant `onSetup()` returned
(a quantity the code does not sample). -/
def specFirstDelta (nowSeq : Nat → Rat) (setupEnd : Rat) : Rat :=
  nowSeq 1 - setupEnd

/-- A concrete clock trace: `run()` entry at t = 0; the setup callback
runs for 10 seconds and returns at t = 10; every later `now()` call also
reads t = 10 (no time passes inside the loop). -/
def slowSetupClock : Nat → Rat := fun k => if k = 0 then 0 else 10

/-- C5 fails as stated: with `slowSetupClock` (setup returned at t = 10,
which is also the first in-loop sample) the first iteration's deltaTime
is 10 — measured from before setup began — while a deltaTime measured
from just after setup returned would be 0. -/
theorem run_first_delta_counterexample :
    runDeltas slowSetupClock 1 = [10] ∧
      specFirstDelta slowSetupClock 10 = 0 ∧
      slowSetupClock 0 ≤ 10 ∧ (10 : Rat) ≤ slowSetupClock 1 ∧
      (10 : Rat) ≠ 0 := by
  refine ⟨?_, ?_, ?_, ?_, ?_⟩ <;> norm_num [runDeltas, runLoopDeltas,
    specFirstDelta, slowSetupClock]

/-- Helper: the loop deltas from sample index k are successive clock
differences. -/
theorem runLoopDeltas_eq_diffs (nowSeq : Nat → Rat) :
    ∀ (n k : Nat), runLoopDeltas nowSeq (nowSeq k) (k + 1) n =
      (List.range n).map (fun i => nowSeq (k + i + 1) - nowSeq (k + i)) := by
  intro n
  induction n with
  | zero => intro k; rfl
  | succ n ih =>
    intro k
    rw [List.range_succ_eq_map, List.map_cons, List.map_map]
    show (nowSeq (k + 1) - nowSeq k) :: runLoopDeltas nowSeq (nowSeq (k + 1))
        (k + 1 + 1) n = _
    rw [ih (k + 1)]
    refine congrArg₂ List.cons
      (congrArg₂ Sub.sub rfl (congrArg nowSeq (by omega))) ?_
    refine List.map_congr_left ?_
    intro i _
    show nowSeq (k + 1 + i + 1) - nowSeq (k + 1 + i) = _
    refine congrArg₂ Sub.sub (congrArg nowSeq (by omega)) (congrArg nowSeq (by omega))

/-- C5 amended: deltaTime of loop iteration k (0-based) is
`nowSeq (k+1) - nowSeq k`; in particular the first iteration's deltaTime
is measured from the timestamp sampled at entry to `run()` — before
`onSetup()` ran, so it includes the setup callback's duration — and each
later iteration measures from the previous iteration's stored
timestamp. -/
theorem runDeltas_eq_succ_diffs (nowSeq : Nat → Rat) (n : Nat) :
    runDeltas nowSeq n =
      (List.range n).map (fun k => nowSeq (k + 1) - nowSeq k) := by
  unfold runDeltas
  rw [runLoopDeltas_eq_diffs nowSeq n 0]
  refine List.map_congr_left ?_
  intro i _
  refine congrArg₂ Sub.sub (congrArg nowSeq (by omega)) (congrArg nowSeq (by omega))

/-! ### Event trace of `Engine::run` -/

/-- The observable calls `Engine::run` makes, in program order. -/
inductive REvent where
  | setupEv
  | beginFrameEv
  | updateEv
  | endFrameEv
  | swapEv
  | pollEv
  | destroyEv
deriving DecidableEq

/-- The five calls of one loop iteration of `Engine::run`, in order:
`graphics->beginFrame()`, `onUpdate(..)`, `graphics->endFrame()`,
`window->swapBuffers()`, `window->pollEvents()`. -/
def iterEvents : List REvent :=
  [REvent.beginFrameEv, REvent.updateEv, REvent.endFrameEv,
    REvent.swapEv, REvent.pollEv]

/-- The while-loop of `Engine::run`: `shouldClose k` is the value of
`window->shouldClose()` at its k-th evaluation.  Fuel bounds how many
iterations are modelled; `none` means the loop was still running when
the fuel ran out. -/
def runLoop (shouldClose : Nat → Bool) : Nat → Nat → Option (List REvent)
  | 0, _ => none
  | fuel + 1, k =>
    if shouldClose k then some []
    else (runLoop shouldClose fuel (k + 1)).map (fun evs => iterEvents ++ evs)

/-- The full event trace of `Engine::run`: `onSetup`, then the loop,
then `onDestroy` once after the loop exits. -/
def runTrace (shouldClose : Nat → Bool) (fuel : Nat) : Option (List REvent) :=
  (runLoop shouldClose fuel 0).map
    (fun evs => REvent.setupEv :: (evs ++ [REvent.destroyEv]))

/-- The loop completes once `shouldClose` turns true within the fuel,
and its events contain no `onDestroy` call. -/
theorem runLoop_completes (shouldClose : Nat → Bool) :
    ∀ (fuel k m : Nat), k ≤ m → m < k + fuel → shouldClose m = true →
      ∃ evs, runLoop shouldClose fuel k = some evs ∧
        evs.count REvent.destroyEv = 0 := by
  intro fuel
  induction fuel with
  | zero => intro k m h1 h2 _; omega
  | succ fuel ih =>
    intro k m h1 h2 hm
    by_cases hk : shouldClose k
    · exact ⟨[], by rw [runLoop, if_pos hk], rfl⟩
    · have hkm : k ≠ m := by
        intro h; rw [h] at hk; exact hk hm
      obtain ⟨evs, hevs, hcount⟩ := ih (k + 1) m (by omega) (by omega) hm
      refine ⟨iterEvents ++ evs, ?_, ?_⟩
      · rw [runLoop, if_neg (by simp [hk]), hevs]
        rfl
      · rw [List.count_append, hcount]
        rfl

/-- C6: whenever the window eventually signals a close request (at the
m-th poll, within the modelled fuel), `Engine::run`'s trace is complete
and invokes the teardown callback `onDestroy` exactly once, as the very
last event — never before loop exit, never twice, and not skipped. -/
theorem run_onDestroy_exactly_once (shouldClose : Nat → Bool) (m fuel : Nat)
    (hclose : shouldClose m = true) (hfuel : m < fuel) :
    ∃ tr, runTrace shouldClose fuel = some tr ∧
      tr.count REvent.destroyEv = 1 ∧ tr.getLast? = some REvent.destroyEv := by
  obtain ⟨evs, hevs, hcount⟩ :=
    runLoop_completes shouldClose fuel 0 m (Nat.zero_le m) (by omega) hclose
  refine ⟨REvent.setupEv :: (evs ++ [REvent.destroyEv]), ?_, ?_, ?_⟩
  · rw [runTrace, hevs]; rfl
  · rw [List.count_cons, List.count_append, hcount]
    rfl
  · rw [show REvent.setupEv :: (evs ++ [REvent.destroyEv]) =
      (REvent.setupEv :: evs) ++ [REvent.destroyEv] from rfl]
    exact List.getLast?_concat _

/-- Witness for C6: the window reports close on its third poll. -/
theorem run_onDestroy_exactly_once_witness :
    ∃ tr, runTrace (fun k => k == 2) 3 = some tr ∧
      tr.count REvent.destroyEv = 1 ∧ tr.getLast? = some REvent.destroyEv :=
  run_onDestroy_exactly_once (fun k => k == 2) 2 3 (by decide) (by decide)

/-! ### `Engine::drawLine` (src/engine.cpp lines 69-91) -/

/-- Writes at one cell do not disturb reads at a different coordinate. -/
theorem getD_set_ne (l : List Nat) {i j : Nat} (v d : Nat) (hij : i ≠ j) :
    (l.set i v).getD j d = l.getD j d := by
  by_cases hj : j < l.length
  · have hj' : j < (l.set i v).length := by rw [List.length_set]; exact hj
    rw [List.getD_eq_getElem _ _ hj', List.getD_eq_getElem _ _ hj,
      List.getElem_set_ne hij]
  · rw [List.getD_eq_default _ _ (by rw [List.length_set]; omega),
      List.getD_eq_default _ _ (by omega)]

/-- An RGB write at `(x, y)` leaves the pixel read at any other
coordinate `(x', y')` unchanged. -/
theorem getPixel_setPixelRGB_other {s : Surface} {x y x' y' : Int}
    (r g b : Nat) (hne : ¬(x' = x ∧ y' = y)) :
    (s.setPixelRGB x y r g b).getPixel x' y' = s.getPixel x' y' := by
  by_cases hw : x < 0 ∨ s.width ≤ x ∨ y < 0 ∨ s.height ≤ y
  · unfold Surface.setPixelRGB
    rw [if_pos hw]
  · push_neg at hw
    obtain ⟨hx0, hxw, hy0, hyh⟩ := hw
    rw [setPixelRGB_inBounds hx0 hxw hy0 hyh r g b]
    by_cases hr : x' < 0 ∨ s.width ≤ x' ∨ y' < 0 ∨ s.height ≤ y'
    · unfold Surface.getPixel
      dsimp only
      rw [if_pos hr, if_pos hr]
    · push_neg at hr
      obtain ⟨hx0', hxw', hy0', hyh'⟩ := hr
      rw [@getPixel_inBounds (Surface.mk s.width s.height
        (s.pixelBuffer.set (y * s.width + x).toNat
          (255 * 16777216 + r % 256 * 65536 + g % 256 * 256 + b % 256)))
        x' y' hx0' hxw' hy0' hyh']
      rw [getPixel_inBounds hx0' hxw' hy0' hyh']
      dsimp only
      have hij : (y * s.width + x).toNat ≠ (y' * s.width + x').toNat :=
        rowMajor_inj hx0 hxw hy0 hyh hx0' hxw' hy0' hyh'
          (fun hc => hne ⟨hc.1.symm, hc.2.symm⟩)
      rw [getD_set_ne _ _ _ hij]

/-- A `drawPixel(int..)` write at `(x, y)` leaves any other coordinate
unchanged. -/
theorem getPixel_drawPixelRGB_other {s : Surface} {x y x' y' : Int}
    (r g b : Int) (hne : ¬(x' = x ∧ y' = y)) :
    (Engine.drawPixelRGB x y r g b s).getPixel x' y' = s.getPixel x' y' := by
  unfold Engine.drawPixelRGB Graphics.setPixelInt
  exact getPixel_setPixelRGB_other _ _ _ hne

/-- Reading back the cell just written through `drawPixel(int..)`. -/
theorem getPixel_drawPixelRGB_self {s : Surface} (hWF : s.WF) {x y : Int}
    (r g b : Int) (hx0 : 0 ≤ x) (hxw : x < s.width) (hy0 : 0 ≤ y)
    (hyh : y < s.height) :
    (Engine.drawPixelRGB x y r g b s).getPixel x y =
      Color.ofRGBA (toU8 r) (toU8 g) (toU8 b) 255 := by
  unfold Engine.drawPixelRGB Graphics.setPixelInt
  exact getPixel_setPixelRGB_self hWF _ _ _ hx0 hxw hy0 hyh

/-- Every read of a freshly constructed surface yields opaque black,
in bounds or out. -/
theorem getPixel_ofSize_black (w h x y : Int) :
    (Surface.ofSize w h).getPixel x y = Color.Black := by
  by_cases hb : x < 0 ∨ w ≤ x ∨ y < 0 ∨ h ≤ y
  · unfold Surface.ofSize Surface.getPixel
    dsimp only
    rw [if_pos hb]
  · push_neg at hb
    obtain ⟨h1, h2, h3, h4⟩ := hb
    rw [@getPixel_inBounds (Surface.ofSize w h) x y h1 h2 h3 h4]
    have hcell : (Surface.ofSize w h).pixelBuffer.getD
        (y * (Surface.ofSize w h).width + x).toNat 0 = opaqueBlackPixel := by
      show (List.replicate (w * h).toNat opaqueBlackPixel).getD
        (y * w + x).toNat 0 = opaqueBlackPixel
      exact getD_replicate_of_lt (rowMajor_lt h1 h2 h3 h4)
    rw [hcell]
    decide

theorem width_drawPixelRGB (s : Surface) (x y r g b : Int) :
    (Engine.drawPixelRGB x y r g b s).width = s.width := by
  unfold Engine.drawPixelRGB Graphics.setPixelInt Surface.setPixelRGB
  split <;> rfl

theorem height_drawPixelRGB (s : Surface) (x y r g b : Int) :
    (Engine.drawPixelRGB x y r g b s).height = s.height := by
  unfold Engine.drawPixelRGB Graphics.setPixelInt Surface.setPixelRGB
  split <;> rfl

/-- The while-loop of `Engine::drawLine` (src/engine.cpp lines 75-88),
plotting through `Engine::drawPixel(int, int, int, int, int)`.  The
local `e2 = 2 * err` and the two conditional updates of the source are
inlined: an iteration at `(x, y, err)` plots `(x, y)`, breaks when
`(x, y) = (x2, y2)`, steps `x` by `sx` (and subtracts `dy` from `err`)
when `2 * err > -dy`, and steps `y` by `sy` (and adds `dx` to `err`)
when `2 * err < dx`.  `fuel` bounds the number of iterations modelled;
`none` means the fuel ran out.  The result carries the final surface and
the plotted coordinates in order. -/
def drawLineLoop (r g b x2 y2 dx dy sx sy : Int) :
    Nat → Int → Int → Int → Surface → Option (Surface × List (Int × Int))
  | 0, _, _, _, _ => none
  | fuel + 1, x, y, err, s =>
    if x = x2 ∧ y = y2 then some (Engine.drawPixelRGB x y r g b s, [(x, y)])
    else
      (drawLineLoop r g b x2 y2 dx dy sx sy fuel
          (if 2 * err > -dy then x + sx else x)
          (if 2 * err < dx then y + sy else y)
          (if 2 * err < dx then
            (if 2 * err > -dy then err - dy else err) + dx
          else if 2 * err > -dy then err - dy else err)
          (Engine.drawPixelRGB x y r g b s)).map
        (fun p => (p.1, (x, y) :: p.2))

/-- `Engine::drawLine(int x1, int y1, int x2, int y2, int r, int g, int b)`:
Bresenham setup — `dx = |x2 - x1|`, `dy = |y2 - y1|`,
`sx = (x1 < x2) ? 1 : -1`, `sy = (y1 < y2) ? 1 : -1`, `err = dx - dy` —
followed by the loop.  The fuel `max dx dy + 1` always suffices (see the
totality theorems below), so the `none` fallback is dead code. -/
def Engine.drawLine (x1 y1 x2 y2 r g b : Int) (s : Surface) : Surface :=
  match drawLineLoop r g b x2 y2 |x2 - x1| |y2 - y1|
      (if x1 < x2 then 1 else -1) (if y1 < y2 then 1 else -1)
      ((max |x2 - x1| |y2 - y1|).toNat + 1) x1 y1 (|x2 - x1| - |y2 - y1|) s with
  | some p => p.1
  | none => s

/-- A completed loop plots at most `fuel` pixels. -/
theorem drawLineLoop_length (r g b x2 y2 dx dy sx sy : Int) :
    ∀ (fuel : Nat) (x y err : Int) (s : Surface)
      (out : Surface × List (Int × Int)),
      drawLineLoop r g b x2 y2 dx dy sx sy fuel x y err s = some out →
      out.2.length ≤ fuel := by
  intro fuel
  induction fuel with
  | zero => intro x y err s out h; exact absurd h (by simp [drawLineLoop])
  | succ fuel ih =>
    intro x y err s out h
    rw [drawLineLoop] at h
    by_cases hc : x = x2 ∧ y = y2
    · rw [if_pos hc] at h
      obtain rfl := Option.some.inj h
      simp
    · rw [if_neg hc] at h
      rw [Option.map_eq_some'] at h
      obtain ⟨p, hp, hout⟩ := h
      have hlen := ih _ _ _ _ p hp
      rw [← hout]
      simpa using Nat.succ_le_succ hlen

/-- A completed loop's plotted list is nonempty and ends at the
endpoint `(x2, y2)`. -/
theorem drawLineLoop_last (r g b x2 y2 dx dy sx sy : Int) :
    ∀ (fuel : Nat) (x y err : Int) (s : Surface)
      (out : Surface × List (Int × Int)),
      drawLineLoop r g b x2 y2 dx dy sx sy fuel x y err s = some out →
      out.2 ≠ [] ∧ out.2.getLast? = some (x2, y2) := by
  intro fuel
  induction fuel with
  | zero => intro x y err s out h; exact absurd h (by simp [drawLineLoop])
  | succ fuel ih =>
    intro x y err s out h
    rw [drawLineLoop] at h
    by_cases hc : x = x2 ∧ y = y2
    · rw [if_pos hc] at h
      obtain rfl := Option.some.inj h
      exact ⟨by simp, by simp [hc.1, hc.2]⟩
    · rw [if_neg hc] at h
      rw [Option.map_eq_some'] at h
      obtain ⟨p, hp, hout⟩ := h
      obtain ⟨hne, hlast⟩ := ih _ _ _ _ p hp
      rw [← hout]
      refine ⟨by simp, ?_⟩
      rcases hq : p.2 with _ | ⟨hd, tl⟩
      · exact absurd hq hne
      · rw [hq] at hlast
        show ((x, y) :: (hd :: tl)).getLast? = some (x2, y2)
        rw [List.getLast?_cons_cons]
        exact hlast

/-- Loop totality, x-dominant case `dy < dx`.  The ghost state counts
`u` remaining x-steps and `v` remaining y-steps; the loop head's
position and error are determined by `(u, v)`, and the invariant
`2 * err > -dy` guarantees an x-step every iteration, so `u` is the
measure. -/
theorem drawLineLoop_total_x (r g b x2 y2 dx dy sx sy : Int)
    (hdy0 : 0 ≤ dy) (hdxdy : dy < dx)
    (hsx : sx = 1 ∨ sx = -1) (hsy : sy = 1 ∨ sy = -1) :
    ∀ (fuel : Nat) (u v : Int) (s : Surface), 0 ≤ u → u ≤ dx → 0 ≤ v →
      v ≤ dy → u < (fuel : Int) →
      2 * (dx - dy + u * dy - v * dx) > -dy →
      ∃ out, drawLineLoop r g b x2 y2 dx dy sx sy fuel
        (x2 - u * sx) (y2 - v * sy) (dx - dy + u * dy - v * dx) s =
          some out := by
  intro fuel
  induction fuel with
  | zero =>
    intro u v s hu0 _ _ _ hfuel _
    exfalso
    omega
  | succ fuel ih =>
    intro u v s hu0 hudx hv0 hvdy hfuel hinv
    by_cases hu : u = 0
    · have hv : v = 0 := by
        by_contra hv
        have hv1 : 1 ≤ v := by omega
        have hvdx : dx ≤ v * dx := le_mul_of_one_le_left (by omega) hv1
        rw [hu] at hinv
        linarith
      rw [hu, hv]
      rw [drawLineLoop, if_pos ⟨by ring, by ring⟩]
      exact ⟨_, rfl⟩
    · have hu1 : 1 ≤ u := by omega
      have hnbreak : ¬(x2 - u * sx = x2 ∧ y2 - v * sy = y2) := by
        intro hc
        have h0 : u * sx = 0 := by linarith [hc.1]
        rcases hsx with hs | hs <;> rw [hs] at h0 <;> omega
      rw [drawLineLoop, if_neg hnbreak]
      simp only [if_pos hinv]
      by_cases hyb : 2 * (dx - dy + u * dy - v * dx) < dx
      · have hv1 : 1 ≤ v := by
          by_contra hv1
          have hv0' : v = 0 := by omega
          rw [hv0'] at hyb
          have hdyu : dy ≤ u * dy := le_mul_of_one_le_left hdy0 hu1
          linarith
        simp only [if_pos hyb]
        rw [show x2 - u * sx + sx = x2 - (u - 1) * sx from by ring,
          show y2 - v * sy + sy = y2 - (v - 1) * sy from by ring,
          show dx - dy + u * dy - v * dx - dy + dx
            = dx - dy + (u - 1) * dy - (v - 1) * dx from by ring]
        have hinv' : 2 * (dx - dy + (u - 1) * dy - (v - 1) * dx) > -dy := by
          rw [show dx - dy + (u - 1) * dy - (v - 1) * dx
            = (dx - dy + u * dy - v * dx) + (dx - dy) from by ring]
          linarith
        obtain ⟨out, hout⟩ := ih (u - 1) (v - 1)
          (Engine.drawPixelRGB (x2 - u * sx) (y2 - v * sy) r g b s)
          (by omega) (by omega) (by omega) (by omega) (by omega) hinv'
        rw [hout]
        exact ⟨_, rfl⟩
      · simp only [if_neg hyb]
        rw [show dx - dy + u * dy - v * dx - dy
          = dx - dy + (u - 1) * dy - v * dx from by ring]
        have hinv' : 2 * (dx - dy + (u - 1) * dy - v * dx) > -dy := by
          rw [show dx - dy + (u - 1) * dy - v * dx
            = (dx - dy + u * dy - v * dx) - dy from by ring]
          push_neg at hyb
          linarith
        obtain ⟨out, hout⟩ := ih (u - 1) v
          (Engine.drawPixelRGB (x2 - u * sx) (y2 - v * sy) r g b s)
          (by omega) (by omega) (by omega) (by omega) (by omega) hinv'
        rw [show x2 - u * sx + sx = x2 - (u - 1) * sx from by ring, hout]
        exact ⟨_, rfl⟩

/-- Loop totality, y-dominant case `dx < dy`, with invariant
`2 * err < dx`: a y-step fires every iteration, so `v` is the measure. -/
theorem drawLineLoop_total_y (r g b x2 y2 dx dy sx sy : Int)
    (hdx0 : 0 ≤ dx) (hdxdy : dx < dy)
    (hsx : sx = 1 ∨ sx = -1) (hsy : sy = 1 ∨ sy = -1) :
    ∀ (fuel : Nat) (u v : Int) (s : Surface), 0 ≤ u → u ≤ dx → 0 ≤ v →
      v ≤ dy → v < (fuel : Int) →
      2 * (dx - dy + u * dy - v * dx) < dx →
      ∃ out, drawLineLoop r g b x2 y2 dx dy sx sy fuel
        (x2 - u * sx) (y2 - v * sy) (dx - dy + u * dy - v * dx) s =
          some out := by
  intro fuel
  induction fuel with
  | zero =>
    intro u v s _ _ hv0 _ hfuel _
    exfalso
    omega
  | succ fuel ih =>
    intro u v s hu0 hudx hv0 hvdy hfuel hinv
    by_cases hv : v = 0
    · have hu : u = 0 := by
        by_contra hu
        have hu1 : 1 ≤ u := by omega
        have hudy : dy ≤ u * dy := le_mul_of_one_le_left (by omega) hu1
        rw [hv] at hinv
        linarith
      rw [hu, hv]
      rw [drawLineLoop, if_pos ⟨by ring, by ring⟩]
      exact ⟨_, rfl⟩
    · have hv1 : 1 ≤ v := by omega
      have hnbreak : ¬(x2 - u * sx = x2 ∧ y2 - v * sy = y2) := by
        intro hc
        have h0 : v * sy = 0 := by linarith [hc.2]
        rcases hsy with hs | hs <;> rw [hs] at h0 <;> omega
      rw [drawLineLoop, if_neg hnbreak]
      simp only [if_pos hinv]
      by_cases hxb : 2 * (dx - dy + u * dy - v * dx) > -dy
      · have hu1 : 1 ≤ u := by
          by_contra hu1
          have hu0' : u = 0 := by omega
          rw [hu0'] at hxb
          have hvdx : dx ≤ v * dx := le_mul_of_one_le_left hdx0 hv1
          linarith
        simp only [if_pos hxb]
        rw [show x2 - u * sx + sx = x2 - (u - 1) * sx from by ring,
          show y2 - v * sy + sy = y2 - (v - 1) * sy from by ring,
          show dx - dy + u * dy - v * dx - dy + dx
            = dx - dy + (u - 1) * dy - (v - 1) * dx from by ring]
        have hinv' : 2 * (dx - dy + (u - 1) * dy - (v - 1) * dx) < dx := by
          rw [show dx - dy + (u - 1) * dy - (v - 1) * dx
            = (dx - dy + u * dy - v * dx) + (dx - dy) from by ring]
          linarith
        obtain ⟨out, hout⟩ := ih (u - 1) (v - 1)
          (Engine.drawPixelRGB (x2 - u * sx) (y2 - v * sy) r g b s)
          (by omega) (by omega) (by omega) (by omega) (by omega) hinv'
        rw [hout]
        exact ⟨_, rfl⟩
      · simp only [if_neg hxb]
        rw [show dx - dy + u * dy - v * dx + dx
          = dx - dy + u * dy - (v - 1) * dx from by ring,
          show y2 - v * sy + sy = y2 - (v - 1) * sy from by ring]
        have hinv' : 2 * (dx - dy + u * dy - (v - 1) * dx) < dx := by
          rw [show dx - dy + u * dy - (v - 1) * dx
            = (dx - dy + u * dy - v * dx) + dx from by ring]
          push_neg at hxb
          linarith
        obtain ⟨out, hout⟩ := ih u (v - 1)
          (Engine.drawPixelRGB (x2 - u * sx) (y2 - v * sy) r g b s)
          (by omega) (by omega) (by omega) (by omega) (by omega) hinv'
        rw [hout]
        exact ⟨_, rfl⟩

/-- Loop totality, diagonal case `dx = dy = d`: both axes step every
iteration and the error stays 0. -/
theorem drawLineLoop_total_diag (r g b x2 y2 d sx sy : Int)
    (hd0 : 0 ≤ d) (hsx : sx = 1 ∨ sx = -1) (hsy : sy = 1 ∨ sy = -1) :
    ∀ (fuel : Nat) (u : Int) (s : Surface), 0 ≤ u → u ≤ d →
      u < (fuel : Int) →
      ∃ out, drawLineLoop r g b x2 y2 d d sx sy fuel
        (x2 - u * sx) (y2 - u * sy) 0 s = some out := by
  intro fuel
  induction fuel with
  | zero =>
    intro u s hu0 _ hfuel
    exfalso
    omega
  | succ fuel ih =>
    intro u s hu0 hud hfuel
    by_cases hu : u = 0
    · rw [hu, drawLineLoop, if_pos ⟨by ring, by ring⟩]
      exact ⟨_, rfl⟩
    · have hu1 : 1 ≤ u := by omega
      have hd1 : 1 ≤ d := by omega
      have hnbreak : ¬(x2 - u * sx = x2 ∧ y2 - u * sy = y2) := by
        intro hc
        have h0 : u * sx = 0 := by linarith [hc.1]
        rcases hsx with hs | hs <;> rw [hs] at h0 <;> omega
      rw [drawLineLoop, if_neg hnbreak]
      have hxc : 2 * (0 : Int) > -d := by omega
      have hyc : 2 * (0 : Int) < d := by omega
      simp only [if_pos hxc, if_pos hyc]
      rw [show x2 - u * sx + sx = x2 - (u - 1) * sx from by ring,
        show y2 - u * sy + sy = y2 - (u - 1) * sy from by ring,
        show (0 : Int) - d + d = 0 from by ring]
      obtain ⟨out, hout⟩ := ih (u - 1)
        (Engine.drawPixelRGB (x2 - u * sx) (y2 - u * sy) r g b s)
        (by omega) (by omega) (by omega)
      rw [hout]
      exact ⟨_, rfl⟩

/-- Loop totality from the initial Bresenham state: fuel
`max dx dy + 1` always completes. -/
theorem drawLineLoop_total (r g b x2 y2 dx dy sx sy : Int)
    (hdx0 : 0 ≤ dx) (hdy0 : 0 ≤ dy)
    (hsx : sx = 1 ∨ sx = -1) (hsy : sy = 1 ∨ sy = -1) (s : Surface) :
    ∃ out, drawLineLoop r g b x2 y2 dx dy sx sy
      ((max dx dy).toNat + 1) (x2 - dx * sx) (y2 - dy * sy) (dx - dy) s =
        some out := by
  rcases lt_trichotomy dy dx with hlt | heq | hgt
  · have hcast : ((max dx dy).toNat : Int) = dx := by
      rw [max_eq_left (le_of_lt hlt)]
      exact Int.toNat_of_nonneg hdx0
    have hfuel : dx < (((max dx dy).toNat + 1 : Nat) : Int) := by
      push_cast
      omega
    have hinv : 2 * (dx - dy + dx * dy - dy * dx) > -dy := by
      rw [show dx - dy + dx * dy - dy * dx = dx - dy from by ring]
      omega
    obtain ⟨out, hout⟩ := drawLineLoop_total_x r g b x2 y2 dx dy sx sy hdy0
      hlt hsx hsy ((max dx dy).toNat + 1) dx dy s hdx0 le_rfl hdy0 le_rfl
      hfuel hinv
    rw [show dx - dy + dx * dy - dy * dx = dx - dy from by ring] at hout
    exact ⟨out, hout⟩
  · subst heq
    have hcast : ((max dy dy).toNat : Int) = dy := by
      rw [max_self]
      exact Int.toNat_of_nonneg hdy0
    have hfuel : dy < (((max dy dy).toNat + 1 : Nat) : Int) := by
      push_cast
      omega
    rw [show dy - dy = (0 : Int) from by ring]
    exact drawLineLoop_total_diag r g b x2 y2 dy sx sy hdy0 hsx hsy
      ((max dy dy).toNat + 1) dy s hdy0 le_rfl hfuel
  · have hcast : ((max dx dy).toNat : Int) = dy := by
      rw [max_eq_right (le_of_lt hgt)]
      exact Int.toNat_of_nonneg hdy0
    have hfuel : dy < (((max dx dy).toNat + 1 : Nat) : Int) := by
      push_cast
      omega
    have hinv : 2 * (dx - dy + dx * dy - dy * dx) < dx := by
      rw [show dx - dy + dx * dy - dy * dx = dx - dy from by ring]
      omega
    obtain ⟨out, hout⟩ := drawLineLoop_total_y r g b x2 y2 dx dy sx sy hdx0
      hgt hsx hsy ((max dx dy).toNat + 1) dx dy s hdx0 le_rfl hdy0 le_rfl
      hfuel hinv
    rw [show dx - dy + dx * dy - dy * dx = dx - dy from by ring] at hout
    exact ⟨out, hout⟩

/-- C10: the `drawLine` rasterization loop terminates for every
quadruple of integer endpoints and any surface: with fuel
`max |x2-x1| |y2-y1| + 1` it completes from the initial Bresenham state
of `Engine::drawLine`, writes at most `max |x2-x1| |y2-y1| + 1` pixels,
and the last pixel written is the endpoint `(x2, y2)`; `Engine::drawLine`
returns the surface the completed loop produced. -/
theorem drawLine_loop_terminates (x1 y1 x2 y2 r g b : Int) (s : Surface) :
    ∃ s' pts,
      drawLineLoop r g b x2 y2 |x2 - x1| |y2 - y1|
          (if x1 < x2 then 1 else -1) (if y1 < y2 then 1 else -1)
          ((max |x2 - x1| |y2 - y1|).toNat + 1) x1 y1
          (|x2 - x1| - |y2 - y1|) s = some (s', pts) ∧
        pts.length ≤ (max |x2 - x1| |y2 - y1|).toNat + 1 ∧
        pts.getLast? = some (x2, y2) ∧
        Engine.drawLine x1 y1 x2 y2 r g b s = s' := by
  have habsx : x2 - |x2 - x1| * (if x1 < x2 then 1 else -1) = x1 := by
    rcases lt_or_ge x1 x2 with hlt | hge
    · rw [if_pos hlt, abs_of_nonneg (by omega : (0 : Int) ≤ x2 - x1)]
      ring
    · rw [if_neg (by omega), abs_of_nonpos (by omega : x2 - x1 ≤ 0)]
      ring
  have habsy : y2 - |y2 - y1| * (if y1 < y2 then 1 else -1) = y1 := by
    rcases lt_or_ge y1 y2 with hlt | hge
    · rw [if_pos hlt, abs_of_nonneg (by omega : (0 : Int) ≤ y2 - y1)]
      ring
    · rw [if_neg (by omega), abs_of_nonpos (by omega : y2 - y1 ≤ 0)]
      ring
  have hsx : (if x1 < x2 then (1 : Int) else -1) = 1 ∨
      (if x1 < x2 then (1 : Int) else -1) = -1 := by
    split
    · exact Or.inl rfl
    · exact Or.inr rfl
  have hsy : (if y1 < y2 then (1 : Int) else -1) = 1 ∨
      (if y1 < y2 then (1 : Int) else -1) = -1 := by
    split
    · exact Or.inl rfl
    · exact Or.inr rfl
  obtain ⟨out, hout⟩ := drawLineLoop_total r g b x2 y2 |x2 - x1| |y2 - y1|
    (if x1 < x2 then 1 else -1) (if y1 < y2 then 1 else -1)
    (abs_nonneg _) (abs_nonneg _) hsx hsy s
  rw [habsx, habsy] at hout
  obtain ⟨s', pts⟩ := out
  refine ⟨s', pts, hout, ?_, ?_, ?_⟩
  · exact drawLineLoop_length _ _ _ _ _ _ _ _ _ _ _ _ _ _ _ hout
  · exact (drawLineLoop_last _ _ _ _ _ _ _ _ _ _ _ _ _ _ _ hout).2
  · unfold Engine.drawLine
    rw [hout]

/-- Evaluation of the diagonal line call: the loop plots exactly
`(0,0), (1,1), (2,2), (3,3)`, innermost write first. -/
theorem drawLine_diag_eval (r g b : Int) (s : Surface) :
    Engine.drawLine 0 0 3 3 r g b s =
      Engine.drawPixelRGB 3 3 r g b (Engine.drawPixelRGB 2 2 r g b
        (Engine.drawPixelRGB 1 1 r g b (Engine.drawPixelRGB 0 0 r g b s))) :=
  rfl

/-- Evaluation of the horizontal line call: the loop plots exactly
`(0,0) .. (5,0)`, innermost write first. -/
theorem drawLine_horiz_eval (r g b : Int) (s : Surface) :
    Engine.drawLine 0 0 5 0 r g b s =
      Engine.drawPixelRGB 5 0 r g b (Engine.drawPixelRGB 4 0 r g b
        (Engine.drawPixelRGB 3 0 r g b (Engine.drawPixelRGB 2 0 r g b
          (Engine.drawPixelRGB 1 0 r g b
            (Engine.drawPixelRGB 0 0 r g b s))))) :=
  rfl

/-- C4: on a fresh surface large enough to contain the endpoints,
`drawLine(0,0,3,3,r,g,b)` sets exactly the diagonal cells
`(0,0), (1,1), (2,2), (3,3)` to the given (opaque) color and no other
cell, and `drawLine(0,0,5,0,r,g,b)` sets exactly the cells
`(0,0) .. (5,0)` and no other cell. -/
theorem drawLine_exact_cells (w h r g b : Int) (hw : 6 ≤ w) (hh : 6 ≤ h)
    (hr0 : 0 ≤ r) (hr : r < 256) (hg0 : 0 ≤ g) (hg : g < 256)
    (hb0 : 0 ≤ b) (hb : b < 256) :
    (∀ x y : Int,
      (Engine.drawLine 0 0 3 3 r g b (Surface.ofSize w h)).getPixel x y =
        if x = y ∧ 0 ≤ x ∧ x ≤ 3 then
          Color.ofRGBA r.toNat g.toNat b.toNat 255
        else Color.Black) ∧
    ∀ x y : Int,
      (Engine.drawLine 0 0 5 0 r g b (Surface.ofSize w h)).getPixel x y =
        if y = 0 ∧ 0 ≤ x ∧ x ≤ 5 then
          Color.ofRGBA r.toNat g.toNat b.toNat 255
        else Color.Black := by
  have hur : toU8 r = r.toNat := by unfold toU8; omega
  have hug : toU8 g = g.toNat := by unfold toU8; omega
  have hub : toU8 b = b.toNat := by unfold toU8; omega
  have hWF0 : (Surface.ofSize w h).WF := Surface.WF.ofSize w h
  constructor
  · have hWF1 : (Engine.drawPixelRGB 0 0 r g b (Surface.ofSize w h)).WF :=
      hWF0.drawPixelRGB 0 0 r g b
    have hWF2 : (Engine.drawPixelRGB 1 1 r g b (Engine.drawPixelRGB 0 0 r g b
        (Surface.ofSize w h))).WF := hWF1.drawPixelRGB 1 1 r g b
    have hWF3 : (Engine.drawPixelRGB 2 2 r g b (Engine.drawPixelRGB 1 1 r g b
        (Engine.drawPixelRGB 0 0 r g b (Surface.ofSize w h)))).WF :=
      hWF2.drawPixelRGB 2 2 r g b
    have hw1 : (Engine.drawPixelRGB 0 0 r g b (Surface.ofSize w h)).width = w := by
      rw [width_drawPixelRGB]
      exact rfl
    have hh1 : (Engine.drawPixelRGB 0 0 r g b (Surface.ofSize w h)).height = h := by
      rw [height_drawPixelRGB]
      exact rfl
    have hw2 : (Engine.drawPixelRGB 1 1 r g b (Engine.drawPixelRGB 0 0 r g b
        (Surface.ofSize w h))).width = w := by
      rw [width_drawPixelRGB, hw1]
    have hh2 : (Engine.drawPixelRGB 1 1 r g b (Engine.drawPixelRGB 0 0 r g b
        (Surface.ofSize w h))).height = h := by
      rw [height_drawPixelRGB, hh1]
    have hw3 : (Engine.drawPixelRGB 2 2 r g b (Engine.drawPixelRGB 1 1 r g b
        (Engine.drawPixelRGB 0 0 r g b (Surface.ofSize w h)))).width = w := by
      rw [width_drawPixelRGB, hw2]
    have hh3 : (Engine.drawPixelRGB 2 2 r g b (Engine.drawPixelRGB 1 1 r g b
        (Engine.drawPixelRGB 0 0 r g b (Surface.ofSize w h)))).height = h := by
      rw [height_drawPixelRGB, hh2]
    intro x y
    rw [drawLine_diag_eval]
    by_cases hcell : x = y ∧ 0 ≤ x ∧ x ≤ 3
    · obtain ⟨hxy, hx0, hx3⟩ := hcell
      subst hxy
      rw [if_pos ⟨rfl, hx0, hx3⟩]
      interval_cases x
      · rw [getPixel_drawPixelRGB_other r g b (by omega),
          getPixel_drawPixelRGB_other r g b (by omega),
          getPixel_drawPixelRGB_other r g b (by omega),
          getPixel_drawPixelRGB_self hWF0 r g b (by omega)
            (by show (0 : Int) < w; omega) (by omega)
            (by show (0 : Int) < h; omega),
          hur, hug, hub]
      · rw [getPixel_drawPixelRGB_other r g b (by omega),
          getPixel_drawPixelRGB_other r g b (by omega),
          getPixel_drawPixelRGB_self hWF1 r g b (by omega)
            (by rw [hw1]; omega) (by omega) (by rw [hh1]; omega),
          hur, hug, hub]
      · rw [getPixel_drawPixelRGB_other r g b (by omega),
          getPixel_drawPixelRGB_self hWF2 r g b (by omega)
            (by rw [hw2]; omega) (by omega) (by rw [hh2]; omega),
          hur, hug, hub]
      · rw [getPixel_drawPixelRGB_self hWF3 r g b (by omega)
            (by rw [hw3]; omega) (by omega) (by rw [hh3]; omega),
          hur, hug, hub]
    · rw [if_neg hcell]
      rw [getPixel_drawPixelRGB_other r g b (by omega),
        getPixel_drawPixelRGB_other r g b (by omega),
        getPixel_drawPixelRGB_other r g b (by omega),
        getPixel_drawPixelRGB_other r g b (by omega),
        getPixel_ofSize_black]
  · have hWF1 : (Engine.drawPixelRGB 0 0 r g b (Surface.ofSize w h)).WF :=
      hWF0.drawPixelRGB 0 0 r g b
    have hWF2 : (Engine.drawPixelRGB 1 0 r g b (Engine.drawPixelRGB 0 0 r g b
        (Surface.ofSize w h))).WF := hWF1.drawPixelRGB 1 0 r g b
    have hWF3 : (Engine.drawPixelRGB 2 0 r g b (Engine.drawPixelRGB 1 0 r g b
        (Engine.drawPixelRGB 0 0 r g b (Surface.ofSize w h)))).WF :=
      hWF2.drawPixelRGB 2 0 r g b
    have hWF4 : (Engine.drawPixelRGB 3 0 r g b (Engine.drawPixelRGB 2 0 r g b
        (Engine.drawPixelRGB 1 0 r g b (Engine.drawPixelRGB 0 0 r g b
          (Surface.ofSize w h))))).WF := hWF3.drawPixelRGB 3 0 r g b
    have hWF5 : (Engine.drawPixelRGB 4 0 r g b (Engine.drawPixelRGB 3 0 r g b
        (Engine.drawPixelRGB 2 0 r g b (Engine.drawPixelRGB 1 0 r g b
          (Engine.drawPixelRGB 0 0 r g b (Surface.ofSize w h)))))).WF :=
      hWF4.drawPixelRGB 4 0 r g b
    have hw1 : (Engine.drawPixelRGB 0 0 r g b (Surface.ofSize w h)).width = w := by
      rw [width_drawPixelRGB]
      exact rfl
    have hh1 : (Engine.drawPixelRGB 0 0 r g b (Surface.ofSize w h)).height = h := by
      rw [height_drawPixelRGB]
      exact rfl
    have hw2 : (Engine.drawPixelRGB 1 0 r g b (Engine.drawPixelRGB 0 0 r g b
        (Surface.ofSize w h))).width = w := by
      rw [width_drawPixelRGB, hw1]
    have hh2 : (Engine.drawPixelRGB 1 0 r g b (Engine.drawPixelRGB 0 0 r g b
        (Surface.ofSize w h))).height = h := by
      rw [height_drawPixelRGB, hh1]
    have hw3 : (Engine.drawPixelRGB 2 0 r g b (Engine.drawPixelRGB 1 0 r g b
        (Engine.drawPixelRGB 0 0 r g b (Surface.ofSize w h)))).width = w := by
      rw [width_drawPixelRGB, hw2]
    have hh3 : (Engine.drawPixelRGB 2 0 r g b (Engine.drawPixelRGB 1 0 r g b
        (Engine.drawPixelRGB 0 0 r g b (Surface.ofSize w h)))).height = h := by
      rw [height_drawPixelRGB, hh2]
    have hw4 : (Engine.drawPixelRGB 3 0 r g b (Engine.drawPixelRGB 2 0 r g b
        (Engine.drawPixelRGB 1 0 r g b (Engine.drawPixelRGB 0 0 r g b
          (Surface.ofSize w h))))).width = w := by
      rw [width_drawPixelRGB, hw3]
    have hh4 : (Engine.drawPixelRGB 3 0 r g b (Engine.drawPixelRGB 2 0 r g b
        (Engine.drawPixelRGB 1 0 r g b (Engine.drawPixelRGB 0 0 r g b
          (Surface.ofSize w h))))).height = h := by
      rw [height_drawPixelRGB, hh3]
    have hw5 : (Engine.drawPixelRGB 4 0 r g b (Engine.drawPixelRGB 3 0 r g b
        (Engine.drawPixelRGB 2 0 r g b (Engine.drawPixelRGB 1 0 r g b
          (Engine.drawPixelRGB 0 0 r g b (Surface.ofSize w h)))))).width = w := by
      rw [width_drawPixelRGB, hw4]
    have hh5 : (Engine.drawPixelRGB 4 0 r g b (Engine.drawPixelRGB 3 0 r g b
        (Engine.drawPixelRGB 2 0 r g b (Engine.drawPixelRGB 1 0 r g b
          (Engine.drawPixelRGB 0 0 r g b (Surface.ofSize w h)))))).height = h := by
      rw [height_drawPixelRGB, hh4]
    intro x y
    rw [drawLine_horiz_eval]
    by_cases hcell : y = 0 ∧ 0 ≤ x ∧ x ≤ 5
    · obtain ⟨hy0', hx0, hx5⟩ := hcell
      subst hy0'
      rw [if_pos ⟨rfl, hx0, hx5⟩]
      interval_cases x
      · rw [getPixel_drawPixelRGB_other r g b (by omega),
          getPixel_drawPixelRGB_other r g b (by omega),
          getPixel_drawPixelRGB_other r g b (by omega),
          getPixel_drawPixelRGB_other r g b (by omega),
          getPixel_drawPixelRGB_other r g b (by omega),
          getPixel_drawPixelRGB_self hWF0 r g b (by omega)
            (by show (0 : Int) < w; omega) (by omega)
            (by show (0 : Int) < h; omega),
          hur, hug, hub]
      · rw [getPixel_drawPixelRGB_other r g b (by omega),
          getPixel_drawPixelRGB_other r g b (by omega),
          getPixel_drawPixelRGB_other r g b (by omega),
          getPixel_drawPixelRGB_other r g b (by omega),
          getPixel_drawPixelRGB_self hWF1 r g b (by omega)
            (by rw [hw1]; omega) (by omega) (by rw [hh1]; omega),
          hur, hug, hub]
      · rw [getPixel_drawPixelRGB_other r g b (by omega),
          getPixel_drawPixelRGB_other r g b (by omega),
          getPixel_drawPixelRGB_other r g b (by omega),
          getPixel_drawPixelRGB_self hWF2 r g b (by omega)
            (by rw [hw2]; omega) (by omega) (by rw [hh2]; omega),
          hur, hug, hub]
      · rw [getPixel_drawPixelRGB_other r g b (by omega),
          getPixel_drawPixelRGB_other r g b (by omega),
          getPixel_drawPixelRGB_self hWF3 r g b (by omega)
            (by rw [hw3]; omega) (by omega) (by rw [hh3]; omega),
          hur, hug, hub]
      · rw [getPixel_drawPixelRGB_other r g b (by omega),
          getPixel_drawPixelRGB_self hWF4 r g b (by omega)
            (by rw [hw4]; omega) (by omega) (by rw [hh4]; omega),
          hur, hug, hub]
      · rw [getPixel_drawPixelRGB_self hWF5 r g b (by omega)
            (by rw [hw5]; omega) (by omega) (by rw [hh5]; omega),
          hur, hug, hub]
    · rw [if_neg hcell]
      rw [getPixel_drawPixelRGB_other r g b (by omega),
        getPixel_drawPixelRGB_other r g b (by omega),
        getPixel_drawPixelRGB_other r g b (by omega),
        getPixel_drawPixelRGB_other r g b (by omega),
        getPixel_drawPixelRGB_other r g b (by omega),
        getPixel_drawPixelRGB_other r g b (by omega),
        getPixel_ofSize_black]

/-- Witness for C4 on a 6-by-6 surface with color (10, 20, 30): the cell
(2,2) of the diagonal line holds the color, and the cell (4,1) beside
the horizontal line stays black. -/
theorem drawLine_exact_cells_witness :
    (Engine.drawLine 0 0 3 3 10 20 30 (Surface.ofSize 6 6)).getPixel 2 2 =
        Color.ofRGBA 10 20 30 255 ∧
      (Engine.drawLine 0 0 5 0 10 20 30 (Surface.ofSize 6 6)).getPixel 4 1 =
        Color.Black :=
  ⟨(drawLine_exact_cells 6 6 10 20 30 (by decide) (by decide) (by decide)
      (by decide) (by decide) (by decide) (by decide) (by decide)).1 2 2,
    (drawLine_exact_cells 6 6 10 20 30 (by decide) (by decide) (by decide)
      (by decide) (by decide) (by decide) (by decide) (by decide)).2 4 1⟩

end PXE
